import Mathlib

/-!
Verification of the country-check HTTP service (`src/api/index.js`).

The service has two endpoints, `GET /resolve/user/input` (country allow/deny
classification) and `GET /resolve/number/whitelist` (exact-number allowlist).
Both are pure request-to-response functions; we embed them shallowly.

Strings are modelled as `List Char`.  An Express query-parameter value is
either absent (`undefined` in JS), a string, or some other truthy non-string
value (the query parser produces arrays or objects for repeated or bracketed
parameters); the handlers inspect values only through truthiness, `typeof`
checks, and string methods, so this three-way split captures everything the
code can observe.  Calling a string method on a non-string value throws a
`TypeError`, which we model with `Except Unit`.

The phone-number library (`parsePhoneNumberFromString`) is an external
collaborator; following the design note in the specification it is modelled
as an oracle `ParseFn` producing either an exception, no parse, or a parsed
number with a validity flag and an optional country string.
-/

namespace CountryCheck

/-- The ECMAScript whitespace class `\s` (also the set removed by
`String.prototype.trim`). -/
def isJsWs (c : Char) : Bool :=
  c = '\t' || c = '\n' || c = '\x0b' || c = '\x0c' || c = '\r' || c = ' ' ||
  c = '\u00A0' || c = '\u1680' || (0x2000 ≤ c.toNat && c.toNat ≤ 0x200A) ||
  c = '\u2028' || c = '\u2029' || c = '\u202F' || c = '\u205F' || c = '\u3000' ||
  c = '\uFEFF'

/-- `Char.ofNat` at a valid code point recovers the code point. -/
theorem charToNat_ofNat_valid (n : Nat) (h : n.isValidChar) : (Char.ofNat n).toNat = n := by
  unfold Char.ofNat
  rw [dif_pos h]
  unfold Char.ofNatAux Char.toNat
  rcases h with h1 | ⟨h2a, h2b⟩ <;> simp [UInt32.toNat, BitVec.toNat_ofNatLt]

/-- ASCII case folding, the fragment of `String.prototype.toLowerCase`
exercised by country codes and keys: code points 65-90 are shifted by 32. -/
def lowerChar (c : Char) : Char :=
  if 65 ≤ c.toNat ∧ c.toNat ≤ 90 then Char.ofNat (c.toNat + 32) else c

/-- `String.prototype.toLowerCase` on a character list. -/
def lowerL (l : List Char) : List Char := l.map lowerChar

/-- `String.prototype.trim`: drop `\s` characters from both ends. -/
def trimL (l : List Char) : List Char :=
  ((l.dropWhile isJsWs).reverse.dropWhile isJsWs).reverse

/-- `String.prototype.split(",")`: split at every comma; splitting the empty
string gives one empty segment, exactly as in JS. -/
def splitComma : List Char → List (List Char)
  | [] => [[]]
  | c :: cs =>
    match splitComma cs with
    | [] => [[]]
    | g :: gs => if c = ',' then [] :: g :: gs else (c :: g) :: gs

/-- `String.prototype.startsWith("+")`. -/
def startsPlus : List Char → Bool
  | [] => false
  | c :: _ => c = '+'

/-- A query-parameter value as produced by the Express query parser:
absent, a string, or a truthy non-string value (array or object). -/
inductive QVal where
  | undef : QVal
  | str : List Char → QVal
  | other : QVal
deriving DecidableEq

/-- JS truthiness of a query value: `undefined` and `""` are falsy,
non-empty strings, arrays and objects are truthy. -/
def truthy : QVal → Bool
  | .undef => false
  | .str s => !s.isEmpty
  | .other => true

/-- The underlying string of a string-valued query value. -/
def strOf : QVal → List Char
  | .str s => s
  | _ => []

/-- The check `!v || typeof v !== "string" || !v.trim()` shared by the
required string parameters: true when the value is absent, not a string, or
empty after trimming. -/
def invalidInput : QVal → Bool
  | .undef => true
  | .other => true
  | .str s => s.isEmpty || (trimL s).isEmpty

/-- The JSON response body: the `code`/HTTP status and `result[0].message`. -/
structure Resp where
  status : Nat
  message : List Char
deriving DecidableEq

/-- Status of a handler outcome: `some status` for a response, `none` when
the handler threw. -/
def respStatus : Except Unit Resp → Option Nat
  | .ok r => some r.status
  | .error _ => none

/-- Result of the external phone-number parse: a validity flag and the
associated country string, when any. -/
structure PhoneNum where
  valid : Bool
  country : Option (List Char)

/-- The external phone-number library as an oracle: it can throw, parse
nothing, or produce a `PhoneNum`. -/
def ParseFn : Type := List Char → Except Unit (Option PhoneNum)

/-- An oracle whose parse always throws. -/
def parseThrow : ParseFn := fun _ => Except.error ()

/-- An oracle that never recognises a number. -/
def parseNone : ParseFn := fun _ => Except.ok none

/-- An oracle that resolves every number to the (upper-case) country `US`. -/
def parseUS : ParseFn := fun _ => Except.ok (some ⟨true, some ['U', 'S']⟩)

/-! ## GET /resolve/user/input -/

/-- The request to `GET /resolve/user/input`. -/
structure UserReq where
  input : QVal
  validkeys : QVal
  notallowedkeys : QVal
  defaultkey : QVal
deriving DecidableEq

/-- `defaultkey?.trim().toLowerCase() || "garbage"`: the effective default
key of the user-input endpoint. -/
def effDefault : QVal → List Char
  | .str s => if (lowerL (trimL s)).isEmpty then "garbage".data else lowerL (trimL s)
  | _ => "garbage".data

/-- `parseKeys`: split a comma-separated key list, trimming and lowercasing
each segment and dropping empty segments; non-strings give the empty list. -/
def parseKeys : QVal → List (List Char)
  | .str s =>
    if s.isEmpty then []
    else ((splitComma s).map fun k => lowerL (trimL k)).filter fun k => !k.isEmpty
  | _ => []

/-- Country resolution: trim the input, prepend `+` when absent, run the
library parse inside `try`/`catch`; a throw, a failed parse, an invalid
number, or an absent/empty country all leave the country unknown, otherwise
the country is lowercased. -/
def resolvedCountry (parse : ParseFn) (input : List Char) : Option (List Char) :=
  let raw := trimL input
  let raw2 := if startsPlus raw then raw else '+' :: raw
  match parse raw2 with
  | .error _ => none
  | .ok none => none
  | .ok (some ph) =>
    if ph.valid then
      match ph.country with
      | none => none
      | some co => if (lowerL co).isEmpty then none else some (lowerL co)
    else none

/-- The `resolvedKey` cascade of the handler: blocked countries give the
blocked marker, then allowed countries give the country code, then the
default key. -/
def resolveKey (c : Option (List Char)) (notAllowedArray validKeysArray : List (List Char))
    (defaultkey : List Char) : List Char :=
  match c with
  | some cc =>
    if notAllowedArray.contains cc then "not_@llowed".data
    else if validKeysArray.contains cc then cc
    else defaultkey
  | none => defaultkey

/-- The body of the user-input handler after the `defaultkey` normalization
succeeded: validation checks in source order, then resolution. -/
def userInputRespond (parse : ParseFn) (req : UserReq) : Resp :=
  if invalidInput req.input then
    ⟨400, "Missing required field: input".data⟩
  else if !truthy req.validkeys && !truthy req.notallowedkeys then
    ⟨400, "At least one of validkeys or notallowedkeys is required".data⟩
  else if (trimL (strOf req.input)).isEmpty then
    ⟨400, "Invalid input: empty after normalization".data⟩
  else
    ⟨200, resolveKey (resolvedCountry parse (strOf req.input))
      (parseKeys req.notallowedkeys) (parseKeys req.validkeys)
      (effDefault req.defaultkey)⟩

/-- `GET /resolve/user/input`.  The very first statement of the handler,
`defaultkey?.trim().toLowerCase() || "garbage"`, throws a `TypeError` when
`defaultkey` is a truthy non-string (for example an array produced by a
repeated query parameter); every later step is total. -/
def userInputHandler (parse : ParseFn) (req : UserReq) : Except Unit Resp :=
  if req.defaultkey = QVal.other then Except.error ()
  else Except.ok (userInputRespond parse req)

/-! ## GET /resolve/number/whitelist -/

/-- The request to `GET /resolve/number/whitelist`. -/
structure WlReq where
  input : QVal
  allowednumbers : QVal
  defaultkey : QVal
deriving DecidableEq

/-- `defaultkey?.trim().toLowerCase() || "not_@llowed"`: the effective
default key of the whitelist endpoint. -/
def effDefaultWl : QVal → List Char
  | .str s => if (lowerL (trimL s)).isEmpty then "not_@llowed".data else lowerL (trimL s)
  | _ => "not_@llowed".data

/-- The character class removed by `num.replaceAll(/[\s\-\\()]/g, "")`:
whitespace, hyphens, backslashes and parentheses. -/
def stripChar (c : Char) : Bool :=
  isJsWs c || c = '-' || c = '\\' || c = '(' || c = ')'

/-- `normalizeNumber`: empty strings give `null`; otherwise remove the
stripped characters, trim, fail on empty, and prepend `+` when absent.
Letter case is left untouched, and no messaging-channel prefix such as
`whatsapp:` is removed. -/
def normalizeNumber (num : List Char) : Option (List Char) :=
  if num.isEmpty then none
  else
    let normalized := trimL (num.filter fun c => !stripChar c)
    if normalized.isEmpty then none
    else if startsPlus normalized then some normalized
    else some ('+' :: normalized)

/-- The normalized allowed-numbers array: split on commas, normalize each
segment, and drop the segments that normalize to `null`. -/
def allowedOfS (s : List Char) : List (List Char) :=
  (splitComma s).filterMap normalizeNumber

/-- The allowed-numbers array of a whitelist request. -/
def allowedOf (req : WlReq) : List (List Char) :=
  allowedOfS (strOf req.allowednumbers)

/-- The body of the whitelist handler after the `defaultkey` normalization
succeeded. -/
def whitelistRespond (req : WlReq) : Resp :=
  if invalidInput req.input then
    ⟨400, "Missing required field: input".data⟩
  else if invalidInput req.allowednumbers then
    ⟨400, "Missing required field: allowednumbers".data⟩
  else
    match normalizeNumber (strOf req.input) with
    | none => ⟨400, "Invalid input: empty after normalization".data⟩
    | some inputNormalized =>
      if (allowedOf req).isEmpty then
        ⟨400, "No valid numbers in allowednumbers".data⟩
      else if (allowedOf req).contains inputNormalized then
        ⟨200, "@llowed".data⟩
      else
        ⟨200, effDefaultWl req.defaultkey⟩

/-- `GET /resolve/number/whitelist`, with the same `defaultkey` throw as the
user-input endpoint. -/
def whitelistHandler (req : WlReq) : Except Unit Resp :=
  if req.defaultkey = QVal.other then Except.error ()
  else Except.ok (whitelistRespond req)

/-! ## Helper lemmas -/

theorem lowerChar_toNat_of_upper {c : Char} (h : 65 ≤ c.toNat ∧ c.toNat ≤ 90) :
    (lowerChar c).toNat = c.toNat + 32 := by
  unfold lowerChar
  rw [if_pos h]
  exact charToNat_ofNat_valid _ (Or.inl (by omega))

theorem lowerChar_eq_self {c : Char} (h : ¬(65 ≤ c.toNat ∧ c.toNat ≤ 90)) :
    lowerChar c = c := by
  unfold lowerChar
  rw [if_neg h]

theorem lowerChar_comma (c : Char) : lowerChar c = ',' ↔ c = ',' := by
  constructor
  · intro h
    by_cases hu : 65 ≤ c.toNat ∧ c.toNat ≤ 90
    · exfalso
      have ht := lowerChar_toNat_of_upper hu
      rw [h] at ht
      have h44 : (',').toNat = 44 := by decide
      rw [h44] at ht
      omega
    · rwa [lowerChar_eq_self hu] at h
  · intro h
    subst h
    decide

/-- No ASCII letter (code points 65-122 cover both cases) is in the JS
whitespace class. -/
theorem isJsWs_false_of_alpha (c : Char) (h1 : 65 ≤ c.toNat) (h2 : c.toNat ≤ 122) :
    isJsWs c = false := by
  have hne : ∀ d : Char, d.toNat < 65 ∨ 122 < d.toNat → c ≠ d := by
    intro d hd he
    subst he
    rcases hd with hd | hd <;> omega
  have hr : ¬(0x2000 ≤ c.toNat) := by omega
  simp [isJsWs, hne '\t' (by decide), hne '\n' (by decide), hne '\x0b' (by decide),
    hne '\x0c' (by decide), hne '\r' (by decide), hne ' ' (by decide),
    hne '\u00A0' (by decide), hne '\u1680' (by decide), hr,
    hne '\u2028' (by decide), hne '\u2029' (by decide), hne '\u202F' (by decide),
    hne '\u205F' (by decide), hne '\u3000' (by decide), hne '\uFEFF' (by decide)]

theorem isJsWs_lowerChar (c : Char) : isJsWs (lowerChar c) = isJsWs c := by
  by_cases hu : 65 ≤ c.toNat ∧ c.toNat ≤ 90
  · have ht := lowerChar_toNat_of_upper hu
    rw [isJsWs_false_of_alpha (lowerChar c) (by omega) (by omega),
      isJsWs_false_of_alpha c (by omega) (by omega)]
  · rw [lowerChar_eq_self hu]

theorem splitComma_cons_of_eq (c : Char) {cs : List Char} {g : List Char}
    {gs : List (List Char)} (h : splitComma cs = g :: gs) :
    splitComma (c :: cs) = if c = ',' then [] :: g :: gs else (c :: g) :: gs := by
  unfold splitComma
  rw [h]

theorem splitComma_ne_nil (l : List Char) : splitComma l ≠ [] := by
  induction l with
  | nil => simp [splitComma]
  | cons c cs ih =>
    rcases h : splitComma cs with _ | ⟨g, gs⟩
    · exact absurd h ih
    · rw [splitComma_cons_of_eq c h]
      split <;> simp

theorem splitComma_lowerL (l : List Char) :
    splitComma (lowerL l) = (splitComma l).map lowerL := by
  induction l with
  | nil => simp [splitComma, lowerL]
  | cons c cs ih =>
    rcases h : splitComma cs with _ | ⟨g, gs⟩
    · exact absurd h (splitComma_ne_nil cs)
    · have hl : splitComma (lowerL cs) = lowerL g :: gs.map lowerL := by
        rw [ih, h]; simp
      show splitComma (lowerChar c :: lowerL cs) = _
      rw [splitComma_cons_of_eq (lowerChar c) hl, splitComma_cons_of_eq c h]
      by_cases hc : c = ','
      · rw [if_pos ((lowerChar_comma c).mpr hc), if_pos hc]
        simp [lowerL]
      · rw [if_neg (fun hx => hc ((lowerChar_comma c).mp hx)), if_neg hc]
        simp [lowerL]

theorem trimL_lowerL (l : List Char) : trimL (lowerL l) = lowerL (trimL l) := by
  have hws : (fun a => isJsWs (lowerChar a)) = isJsWs := by
    funext a; exact isJsWs_lowerChar a
  unfold trimL lowerL
  rw [List.dropWhile_map]
  simp only [Function.comp_def, hws]
  rw [← List.map_reverse, List.dropWhile_map]
  simp only [Function.comp_def, hws]
  rw [← List.map_reverse]

theorem isEmpty_eq_of_length_eq {α β : Type} {l : List α} {m : List β}
    (h : l.length = m.length) : l.isEmpty = m.isEmpty := by
  cases l <;> cases m <;> simp_all

theorem length_of_lowerL_eq {v v' : List Char} (h : lowerL v = lowerL v') :
    v.length = v'.length := by
  have hc := congrArg List.length h
  simpa [lowerL] using hc

/-- A key list and any recasing of it parse to the same key set: `parseKeys`
lowercases every segment. -/
theorem parseKeys_of_lowerL_eq {v v' : List Char} (h : lowerL v = lowerL v') :
    parseKeys (QVal.str v) = parseKeys (QVal.str v') := by
  have hemp : v.isEmpty = v'.isEmpty := isEmpty_eq_of_length_eq (length_of_lowerL_eq h)
  have e1 : ∀ l : List Char,
      (splitComma l).map (fun k => lowerL (trimL k)) = (splitComma (lowerL l)).map trimL := by
    intro l
    have hf : (fun k : List Char => lowerL (trimL k)) = (fun k => trimL (lowerL k)) := by
      funext k
      exact (trimL_lowerL k).symm
    rw [hf, splitComma_lowerL, List.map_map]
    rfl
  have key : (splitComma v).map (fun k => lowerL (trimL k)) =
      (splitComma v').map (fun k => lowerL (trimL k)) := by
    rw [e1, e1, h]
  simp only [parseKeys]
  rw [hemp, key]

/-- The effective default key is insensitive to recasing of the raw value. -/
theorem effDefault_of_lowerL_eq {d d' : List Char} (h : lowerL d = lowerL d') :
    effDefault (QVal.str d) = effDefault (QVal.str d') := by
  have ht : lowerL (trimL d) = lowerL (trimL d') := by
    rw [← trimL_lowerL, ← trimL_lowerL, h]
  simp only [effDefault]
  rw [ht]

theorem truthy_of_lowerL_eq {v v' : List Char} (h : lowerL v = lowerL v') :
    truthy (QVal.str v) = truthy (QVal.str v') := by
  simp only [truthy]
  rw [isEmpty_eq_of_length_eq (length_of_lowerL_eq h)]

/-- The resolver cascade written with set membership, as the specification
states it: deny first, then allow, then the default key. -/
def resolveKeySpec (c : Option (List Char)) (blocked allowed : List (List Char))
    (defaultkey : List Char) : List Char :=
  match c with
  | some cc =>
    if cc ∈ blocked then "not_@llowed".data
    else if cc ∈ allowed then cc
    else defaultkey
  | none => defaultkey

theorem resolveKey_eq_spec (c : Option (List Char)) (na va : List (List Char))
    (dk : List Char) : resolveKey c na va dk = resolveKeySpec c na va dk := by
  unfold resolveKey resolveKeySpec
  cases c with
  | none => rfl
  | some cc =>
    by_cases h1 : cc ∈ na
    · simp [h1]
    · by_cases h2 : cc ∈ va <;> simp [h1, h2]

theorem dropWhile_eq_self_of_none {m : List Char} (hm : ∀ c ∈ m, isJsWs c = false) :
    m.dropWhile isJsWs = m := by
  cases m with
  | nil => rfl
  | cons a as =>
    refine List.dropWhile_cons_of_neg ?h
    simp [hm a (by simp)]

theorem trimL_eq_self_of_no_ws {l : List Char} (h : ∀ c ∈ l, isJsWs c = false) :
    trimL l = l := by
  unfold trimL
  rw [dropWhile_eq_self_of_none h,
    dropWhile_eq_self_of_none (fun c hc => h c (List.mem_reverse.mp hc)),
    List.reverse_reverse]

theorem mem_of_mem_trimL {c : Char} {l : List Char} (h : c ∈ trimL l) : c ∈ l := by
  unfold trimL at h
  have h1 := List.mem_reverse.mp h
  have h2 := (List.dropWhile_sublist isJsWs).mem h1
  have h3 := List.mem_reverse.mp h2
  exact (List.dropWhile_sublist isJsWs).mem h3

/-- Every character of a normalized number is the prepended plus or a
character of the raw number. -/
theorem normalizeNumber_chars {a r : List Char} (h : normalizeNumber a = some r)
    {c : Char} (hc : c ∈ r) : c = '+' ∨ c ∈ a := by
  simp only [normalizeNumber] at h
  split at h
  · exact absurd h (by simp)
  · split at h
    · exact absurd h (by simp)
    · have hmem : ∀ x ∈ trimL (a.filter fun d => !stripChar d), x ∈ a := by
        intro x hx
        exact (List.mem_filter.mp (mem_of_mem_trimL hx)).1
      split at h
      · injection h with h2
        subst h2
        exact Or.inr (hmem c hc)
      · injection h with h2
        subst h2
        rcases List.mem_cons.mp hc with h3 | h3
        · exact Or.inl h3
        · exact Or.inr (hmem c h3)

/-- Whitelist membership as the specification words it: some comma segment
normalizes to the very same string as the input. -/
def matchesAny (allowednumbers input : List Char) : Bool :=
  (splitComma allowednumbers).any fun seg => normalizeNumber seg == normalizeNumber input

theorem contains_allowed_iff_matches {alw inp n : List Char}
    (hn : normalizeNumber inp = some n) :
    (allowedOfS alw).contains n = matchesAny alw inp := by
  unfold allowedOfS matchesAny
  rw [hn]
  induction splitComma alw with
  | nil => rfl
  | cons seg segs ih =>
    rw [List.filterMap_cons]
    cases h : normalizeNumber seg with
    | none => simpa [List.any_cons, h] using ih
    | some m =>
      simp only [List.any_cons, h, List.contains_cons, ih]
      have : (n == m) = (some m == some n) := by
        cases hq : (n == m) <;> cases hq2 : (some m == some n : Bool) <;> simp_all
      rw [this]

theorem invalidInput_str_false {s : List Char} (h : invalidInput (QVal.str s) = false) :
    (trimL s).isEmpty = false := by
  simp only [invalidInput, Bool.or_eq_false_iff] at h
  exact h.2

/-- When the validation checks pass, the user-input handler body reaches the
resolver and answers 200 with its key. -/
theorem userInputRespond_of_valid (parse : ParseFn) (req : UserReq)
    (hin : invalidInput req.input = false)
    (hk : (truthy req.validkeys || truthy req.notallowedkeys) = true) :
    userInputRespond parse req =
      ⟨200, resolveKey (resolvedCountry parse (strOf req.input))
        (parseKeys req.notallowedkeys) (parseKeys req.validkeys)
        (effDefault req.defaultkey)⟩ := by
  have hk2 : (!truthy req.validkeys && !truthy req.notallowedkeys) = false := by
    cases h1 : truthy req.validkeys <;> cases h2 : truthy req.notallowedkeys <;> simp_all
  have h3 : (trimL (strOf req.input)).isEmpty = false := by
    cases hi : req.input with
    | undef => rw [hi] at hin; simp [invalidInput] at hin
    | other => rw [hi] at hin; simp [invalidInput] at hin
    | str s =>
      rw [hi] at hin
      show (trimL (strOf (QVal.str s))).isEmpty = false
      exact invalidInput_str_false hin
  unfold userInputRespond
  rw [hin, hk2, h3]
  rfl

theorem userInputRespond_status (parse : ParseFn) (req : UserReq) :
    (userInputRespond parse req).status = 200 ∨ (userInputRespond parse req).status = 400 := by
  unfold userInputRespond
  split
  · right; rfl
  · split
    · right; rfl
    · split
      · right; rfl
      · left; rfl

/-- When the validation checks pass and the input has a usable normalized
form with a non-empty candidate set, the whitelist handler body reaches the
membership test. -/
theorem whitelistRespond_of_valid (req : WlReq) {n : List Char}
    (hi : invalidInput req.input = false)
    (ha : invalidInput req.allowednumbers = false)
    (hn : normalizeNumber (strOf req.input) = some n)
    (hne : (allowedOf req).isEmpty = false) :
    whitelistRespond req =
      if (allowedOf req).contains n then ⟨200, "@llowed".data⟩
      else ⟨200, effDefaultWl req.defaultkey⟩ := by
  unfold whitelistRespond
  rw [hi, ha, hn, hne]
  rfl

/-! ## Claims -/

/-- C1: for every request to `GET /resolve/user/input` that reaches and
passes validation (its `defaultkey` normalization does not throw, its input
is a non-empty-after-trim string, and at least one raw key set is truthy),
the key resolver returns exactly one token by strict priority: a resolved
country in the blocked set gives the blocked marker (deny beats allow, even
when the code is also in the allowed set), else a resolved country in the
allowed set gives the country code itself, else the default key. -/
theorem userInput_key_priority (parse : ParseFn) (req : UserReq)
    (hdk : req.defaultkey ≠ QVal.other)
    (hin : invalidInput req.input = false)
    (hk : (truthy req.validkeys || truthy req.notallowedkeys) = true) :
    userInputHandler parse req =
      Except.ok ⟨200, resolveKeySpec (resolvedCountry parse (strOf req.input))
        (parseKeys req.notallowedkeys) (parseKeys req.validkeys)
        (effDefault req.defaultkey)⟩ := by
  unfold userInputHandler
  rw [if_neg hdk, userInputRespond_of_valid parse req hin hk, resolveKey_eq_spec]

/-- Witness for C1: the country `us` is in both the blocked and the allowed
set, and the blocked marker wins. -/
theorem userInput_key_priority_witness :
    userInputHandler parseUS
      ⟨QVal.str "+14155550100".data, QVal.str "us".data, QVal.str "us".data,
        QVal.undef⟩ =
      Except.ok ⟨200, "not_@llowed".data⟩ := by
  rw [userInput_key_priority parseUS _ (by decide) (by decide) (by decide)]
  rfl

/-- The default key as the specification words it: the caller-supplied
`defaultkey`, trimmed and lowercased, or the string `garbage` when the
parameter is absent or empty after trimming. -/
def specDefault : QVal → List Char
  | .str s => if trimL s = [] then "garbage".data else lowerL (trimL s)
  | _ => "garbage".data

theorem effDefault_eq_specDefault (q : QVal) : effDefault q = specDefault q := by
  cases q with
  | undef => rfl
  | other => rfl
  | str s =>
    simp only [effDefault, specDefault]
    by_cases h : trimL s = []
    · simp [h, lowerL]
    · have hne : (lowerL (trimL s)).isEmpty = false := by
        cases ht : trimL s with
        | nil => exact absurd ht h
        | cons a as => simp [lowerL]
      simp [hne, h]

/-- No resolution rule fires: the country is unknown, or it is in neither
key set. -/
def noMatch (c : Option (List Char)) (na va : List (List Char)) : Bool :=
  match c with
  | none => true
  | some cc => !na.contains cc && !va.contains cc

/-- C2: for every request to `GET /resolve/user/input` that reaches and
passes validation, when the input yields no country or the country is in
neither key set, the result message is the caller-supplied `defaultkey`
trimmed and lowercased, or `garbage` when the parameter is absent or empty
after trimming. -/
theorem userInput_default_key (parse : ParseFn) (req : UserReq)
    (hdk : req.defaultkey ≠ QVal.other)
    (hin : invalidInput req.input = false)
    (hk : (truthy req.validkeys || truthy req.notallowedkeys) = true)
    (hnm : noMatch (resolvedCountry parse (strOf req.input))
      (parseKeys req.notallowedkeys) (parseKeys req.validkeys) = true) :
    userInputHandler parse req = Except.ok ⟨200, specDefault req.defaultkey⟩ := by
  unfold userInputHandler
  rw [if_neg hdk, userInputRespond_of_valid parse req hin hk,
    ← effDefault_eq_specDefault]
  have hkey : resolveKey (resolvedCountry parse (strOf req.input))
      (parseKeys req.notallowedkeys) (parseKeys req.validkeys)
      (effDefault req.defaultkey) = effDefault req.defaultkey := by
    cases hc : resolvedCountry parse (strOf req.input) with
    | none => rfl
    | some cc =>
      rw [hc] at hnm
      simp only [noMatch, Bool.and_eq_true, Bool.not_eq_true'] at hnm
      have h1 : cc ∉ parseKeys req.notallowedkeys := by simpa using hnm.1
      have h2 : cc ∉ parseKeys req.validkeys := by simpa using hnm.2
      simp [resolveKey, h1, h2]
  rw [hkey]

/-- Witness for C2: an unparseable input with a caller-supplied default key
falls through to that key, trimmed and lowercased. -/
theorem userInput_default_key_witness :
    userInputHandler parseNone
      ⟨QVal.str "notanumber".data, QVal.str "us".data, QVal.undef,
        QVal.str " XX ".data⟩ =
      Except.ok ⟨200, "xx".data⟩ := by
  rw [userInput_default_key parseNone _ (by decide) (by decide) (by decide) (by decide)]
  rfl

/-- C3: on `GET /resolve/number/whitelist`, membership is decided by string
equality of normalized forms — the message is the allowed marker exactly
when some comma segment of `allowednumbers` normalizes to the same string
as the input — and `"+1 (415) 555-0100"` and `"14155550100"` both normalize
to `"+14155550100"`. -/
theorem whitelist_normalized_equality (inp alw : List Char) (dk : QVal)
    (n : List Char) (hdk : dk ≠ QVal.other)
    (hi : invalidInput (QVal.str inp) = false)
    (ha : invalidInput (QVal.str alw) = false)
    (hn : normalizeNumber inp = some n)
    (hne : (allowedOfS alw).isEmpty = false) :
    whitelistHandler ⟨QVal.str inp, QVal.str alw, dk⟩ =
      Except.ok (if matchesAny alw inp then ⟨200, "@llowed".data⟩
        else ⟨200, effDefaultWl dk⟩) ∧
    normalizeNumber "+1 (415) 555-0100".data = some "+14155550100".data ∧
    normalizeNumber "14155550100".data = some "+14155550100".data := by
  refine ⟨?_, by decide, by decide⟩
  unfold whitelistHandler
  rw [if_neg hdk,
    whitelistRespond_of_valid ⟨QVal.str inp, QVal.str alw, dk⟩ hi ha hn hne]
  have hm : (allowedOf ⟨QVal.str inp, QVal.str alw, dk⟩).contains n =
      matchesAny alw inp := contains_allowed_iff_matches hn
  rw [hm]

/-- Witness for C3: the two example spellings match each other. -/
theorem whitelist_normalized_equality_witness :
    whitelistHandler ⟨QVal.str "+1 (415) 555-0100".data,
        QVal.str "14155550100".data, QVal.undef⟩ =
      Except.ok ⟨200, "@llowed".data⟩ := by
  rw [(whitelist_normalized_equality "+1 (415) 555-0100".data "14155550100".data
    QVal.undef "+14155550100".data (by decide) (by decide) (by decide) (by decide)
    (by decide)).1]
  rfl

/-- C10: whitelist normalization does not strip a `whatsapp:` channel
prefix: for a number whose own characters are not in the stripped class,
the normalized form of `whatsapp:<number>` is `+whatsapp:<number>`, and it
is never a member of the normalized allowed array when the allowed entries
are prefix-free (they do not contain the letter `w`). -/
theorem whatsapp_channel_kept (s : List Char) (allowed : List (List Char))
    (hs : ∀ c ∈ s, stripChar c = false)
    (hw : ∀ a ∈ allowed, 'w' ∉ a) :
    normalizeNumber ("whatsapp:".data ++ s) = some ("+whatsapp:".data ++ s) ∧
    ("+whatsapp:".data ++ s) ∉ allowed.filterMap normalizeNumber := by
  constructor
  · have hfilter : ("whatsapp:".data ++ s).filter (fun c => !stripChar c) =
        "whatsapp:".data ++ s := by
      have h1 : "whatsapp:".data.filter (fun c => !stripChar c) =
          "whatsapp:".data := by decide
      have h2 : s.filter (fun c => !stripChar c) = s :=
        List.filter_eq_self.mpr (fun a ha => by simp [hs a ha])
      rw [List.filter_append, h1, h2]
    have hlit : ∀ c ∈ "whatsapp:".data, isJsWs c = false := by decide
    have hnows : ∀ c ∈ "whatsapp:".data ++ s, isJsWs c = false := by
      intro c hc
      rcases List.mem_append.mp hc with h | h
      · exact hlit c h
      · have h2 := hs c h
        simp only [stripChar, Bool.or_eq_false_iff] at h2
        exact h2.1.1.1.1
    have hemp : ("whatsapp:".data ++ s).isEmpty = false := rfl
    simp only [normalizeNumber, hfilter, hemp, trimL_eq_self_of_no_ws hnows]
    rfl
  · intro hmem
    rcases List.mem_filterMap.mp hmem with ⟨a, ha, hna⟩
    have hwn : 'w' ∈ "+whatsapp:".data ++ s :=
      List.mem_append.mpr (Or.inl (by decide))
    rcases normalizeNumber_chars hna hwn with h | h
    · exact absurd h (by decide)
    · exact hw a ha h

/-- Witness for C10: `whatsapp:14155550100` keeps its prefix and is not
whitelisted against the plain `+14155550100`. -/
theorem whatsapp_channel_kept_witness :
    normalizeNumber ("whatsapp:".data ++ "14155550100".data) =
      some ("+whatsapp:".data ++ "14155550100".data) ∧
    ("+whatsapp:".data ++ "14155550100".data) ∉
      ["+14155550100".data].filterMap normalizeNumber :=
  whatsapp_channel_kept "14155550100".data ["+14155550100".data]
    (by decide) (by decide)

/-- C4 counterexample: a request whose input and key sets satisfy every
validation predicate but whose `defaultkey` is a truthy non-string (a
repeated query parameter) makes the handler throw before validation, so it
produces neither a 200 nor a 400 response. -/
theorem userInput_array_defaultkey_throws :
    invalidInput (QVal.str "+14155550100".data) = false ∧
    (truthy (QVal.str "us".data) || truthy QVal.undef) = true ∧
    userInputHandler parseNone
      ⟨QVal.str "+14155550100".data, QVal.str "us".data, QVal.undef, QVal.other⟩ =
      Except.error () :=
  ⟨by decide, by decide, rfl⟩

/-- C4 (amended): for every request whose `defaultkey` is absent or a
string, evaluation is total — the outcome is exactly one response, 200 or
400 — validated requests always get the 200, and a throwing parse is
treated as country unknown. -/
theorem userInput_total_of_wellformed_defaultkey (parse : ParseFn) (req : UserReq)
    (hdk : req.defaultkey ≠ QVal.other) :
    (respStatus (userInputHandler parse req) = some 200 ∨
      respStatus (userInputHandler parse req) = some 400) ∧
    ((invalidInput req.input = false ∧
        (truthy req.validkeys || truthy req.notallowedkeys) = true) →
      respStatus (userInputHandler parse req) = some 200) ∧
    resolvedCountry parseThrow (strOf req.input) = none := by
  have hh : userInputHandler parse req = Except.ok (userInputRespond parse req) := by
    unfold userInputHandler
    rw [if_neg hdk]
  refine ⟨?_, ?_, rfl⟩
  · rw [hh]
    rcases userInputRespond_status parse req with h | h
    · left
      simp [respStatus, h]
    · right
      simp [respStatus, h]
  · rintro ⟨hin, hk⟩
    rw [hh, userInputRespond_of_valid parse req hin hk]
    rfl

/-- Witness for the amended C4. -/
theorem userInput_total_witness :
    respStatus (userInputHandler parseNone
      ⟨QVal.str "+14155550100".data, QVal.str "us".data, QVal.undef, QVal.undef⟩) =
      some 200 :=
  (userInput_total_of_wellformed_defaultkey parseNone _ (by decide)).2.1
    ⟨by decide, by decide⟩

/-- C5 counterexample: with the input absent but `defaultkey` a truthy
non-string, the handler throws instead of answering 400 with the
missing-input message. -/
theorem userInput_missing_input_crash :
    userInputHandler parseNone ⟨QVal.undef, QVal.undef, QVal.undef, QVal.other⟩ =
      Except.error () ∧
    userInputHandler parseNone ⟨QVal.undef, QVal.undef, QVal.undef, QVal.other⟩ ≠
      Except.ok ⟨400, "Missing required field: input".data⟩ := by
  refine ⟨rfl, ?_⟩
  intro h
  exact Except.noConfusion h

/-- C5 (amended): for every request whose `defaultkey` is absent or a
string, an input that is absent, not a string, or empty after trimming gets
the 400 response with the missing-input message. -/
theorem userInput_missing_input_400 (parse : ParseFn) (req : UserReq)
    (hdk : req.defaultkey ≠ QVal.other)
    (hin : invalidInput req.input = true) :
    userInputHandler parse req =
      Except.ok ⟨400, "Missing required field: input".data⟩ := by
  unfold userInputHandler userInputRespond
  rw [if_neg hdk, hin]
  rfl

/-- Witness for the amended C5. -/
theorem userInput_missing_input_400_witness :
    userInputHandler parseNone
      ⟨QVal.undef, QVal.str "us".data, QVal.undef, QVal.undef⟩ =
      Except.ok ⟨400, "Missing required field: input".data⟩ :=
  userInput_missing_input_400 parseNone _ (by decide) (by decide)

/-- C6 counterexample: a whitespace-only `validkeys` is a truthy raw string,
so validation passes, yet both parsed key sets are empty and the resolver
still runs, answering 200 with the default key. -/
theorem userInput_empty_parsed_sets :
    invalidInput (QVal.str "+14155550100".data) = false ∧
    (truthy (QVal.str " ".data) || truthy QVal.undef) = true ∧
    parseKeys (QVal.str " ".data) = [] ∧
    parseKeys QVal.undef = [] ∧
    userInputHandler parseNone
      ⟨QVal.str "+14155550100".data, QVal.str " ".data, QVal.undef, QVal.undef⟩ =
      Except.ok ⟨200, "garbage".data⟩ :=
  ⟨by decide, by decide, by decide, rfl, rfl⟩

/-- C6 (amended): validation guarantees only that at least one raw key
value is truthy; the parsed key sets may nevertheless both be empty, and
the resolver then runs and returns the default key. -/
theorem userInput_keyset_validation (parse : ParseFn) (req : UserReq)
    (hdk : req.defaultkey ≠ QVal.other)
    (hin : invalidInput req.input = false)
    (hk : (truthy req.validkeys || truthy req.notallowedkeys) = true) :
    (truthy req.validkeys = true ∨ truthy req.notallowedkeys = true) ∧
    (parseKeys req.validkeys = [] → parseKeys req.notallowedkeys = [] →
      userInputHandler parse req = Except.ok ⟨200, effDefault req.defaultkey⟩) := by
  constructor
  · cases h1 : truthy req.validkeys <;> cases h2 : truthy req.notallowedkeys <;>
      simp_all
  · intro hv hn
    unfold userInputHandler
    rw [if_neg hdk, userInputRespond_of_valid parse req hin hk, hv, hn]
    have hr : ∀ (c : Option (List Char)) (dk : List Char),
        resolveKey c [] [] dk = dk := by
      intro c dk
      cases c <;> simp [resolveKey]
    rw [hr]

/-- Witness for the amended C6. -/
theorem userInput_keyset_validation_witness :
    userInputHandler parseNone
      ⟨QVal.str "+14155550100".data, QVal.str ",,".data, QVal.undef, QVal.undef⟩ =
      Except.ok ⟨200, "garbage".data⟩ := by
  have h := (userInput_keyset_validation parseNone
    ⟨QVal.str "+14155550100".data, QVal.str ",,".data, QVal.undef, QVal.undef⟩
    (by decide) (by decide) (by decide)).2 (by decide) (by decide)
  exact h

/-- C7 counterexample: an `allowednumbers` string whose candidates all
normalize away, combined with a truthy non-string `defaultkey`, makes the
handler throw rather than answer 400. -/
theorem whitelist_empty_candidates_crash :
    allowedOfS " , ".data = [] ∧
    whitelistHandler
      ⟨QVal.str "+14155550100".data, QVal.str " , ".data, QVal.other⟩ =
      Except.error () :=
  ⟨by decide, rfl⟩

/-- C7 (amended): for every request whose `defaultkey` is absent or a
string and whose `allowednumbers` string normalizes to an empty candidate
set, the response is a 400 — with the no-valid-numbers message whenever the
earlier field validations pass, and a missing-field or invalid-input
message otherwise — never a resolution result. -/
theorem whitelist_empty_candidates_400 (req : WlReq) (s : List Char)
    (hdk : req.defaultkey ≠ QVal.other)
    (ha : req.allowednumbers = QVal.str s)
    (he : allowedOfS s = []) :
    respStatus (whitelistHandler req) = some 400 ∧
    ((invalidInput req.input = false ∧ invalidInput req.allowednumbers = false ∧
        (normalizeNumber (strOf req.input)).isSome = true) →
      whitelistHandler req =
        Except.ok ⟨400, "No valid numbers in allowednumbers".data⟩) := by
  have hh : whitelistHandler req = Except.ok (whitelistRespond req) := by
    unfold whitelistHandler
    rw [if_neg hdk]
  have hae : (allowedOf req).isEmpty = true := by
    unfold allowedOf
    rw [ha]
    simp only [strOf]
    rw [he]
    rfl
  have h400 : (whitelistRespond req).status = 400 := by
    unfold whitelistRespond
    rw [hae]
    split
    · rfl
    · split
      · rfl
      · split
        · rfl
        · rfl
  constructor
  · rw [hh]
    simp [respStatus, h400]
  · rintro ⟨hi, hia, hn⟩
    rcases ho : normalizeNumber (strOf req.input) with _ | m
    · rw [ho] at hn
      simp at hn
    · rw [hh]
      unfold whitelistRespond
      rw [hi, hia, ho, hae]
      rfl

/-- Witness for the amended C7. -/
theorem whitelist_empty_candidates_400_witness :
    whitelistHandler ⟨QVal.str "+14155550100".data, QVal.str "()".data, QVal.undef⟩ =
      Except.ok ⟨400, "No valid numbers in allowednumbers".data⟩ :=
  (whitelist_empty_candidates_400 _ "()".data (by decide) rfl (by decide)).2
    ⟨by decide, by decide, by decide⟩

/-- C8 counterexample: a whitelist request without any `defaultkey` is not
rejected with a missing-field error; it resolves normally and falls back to
the blocked-marker default. -/
theorem whitelist_defaultkey_absent_ok :
    whitelistHandler ⟨QVal.str "+14155550100".data,
        QVal.str "+923001234567".data, QVal.undef⟩ =
      Except.ok ⟨200, "not_@llowed".data⟩ := rfl

/-- C8 (amended): the whitelist `defaultkey` is optional — when it is
absent or empty after trimming (and the other fields validate, with a
non-member input), the endpoint answers 200 with the blocked-marker default
`not_@llowed` instead of failing. -/
theorem whitelist_defaultkey_optional (req : WlReq) (n : List Char)
    (hdk : req.defaultkey ≠ QVal.other)
    (hempty : lowerL (trimL (strOf req.defaultkey)) = [])
    (hi : invalidInput req.input = false)
    (ha : invalidInput req.allowednumbers = false)
    (hn : normalizeNumber (strOf req.input) = some n)
    (hne : (allowedOf req).isEmpty = false)
    (hmem : (allowedOf req).contains n = false) :
    whitelistHandler req = Except.ok ⟨200, "not_@llowed".data⟩ := by
  have hd : effDefaultWl req.defaultkey = "not_@llowed".data := by
    cases hq : req.defaultkey with
    | undef => rfl
    | other => exact absurd hq hdk
    | str s =>
      rw [hq] at hempty
      simp only [strOf] at hempty
      simp [effDefaultWl, hempty]
  unfold whitelistHandler
  rw [if_neg hdk, whitelistRespond_of_valid req hi ha hn hne, hmem, hd]
  rfl

/-- Witness for the amended C8: a whitespace-only `defaultkey` also falls
back to the blocked marker. -/
theorem whitelist_defaultkey_optional_witness :
    whitelistHandler ⟨QVal.str "+15551230000".data, QVal.str "+15559990000".data,
        QVal.str "  ".data⟩ =
      Except.ok ⟨200, "not_@llowed".data⟩ :=
  whitelist_defaultkey_optional _ "+15551230000".data (by decide) (by decide)
    (by decide) (by decide) (by decide) (by decide) (by decide)

/-- C9 counterexample: the whitelist endpoint compares `input` and
`allowednumbers` without lowercasing, so changing only the letter case of
the input changes the response. -/
theorem whitelist_case_sensitivity :
    lowerL "555A".data = lowerL "555a".data ∧
    whitelistHandler ⟨QVal.str "555A".data, QVal.str "555A".data, QVal.undef⟩ =
      Except.ok ⟨200, "@llowed".data⟩ ∧
    whitelistHandler ⟨QVal.str "555a".data, QVal.str "555A".data, QVal.undef⟩ =
      Except.ok ⟨200, "not_@llowed".data⟩ :=
  ⟨by decide, rfl, rfl⟩

/-- C9 (amended): on `GET /resolve/user/input` the `validkeys`,
`notallowedkeys` and `defaultkey` values are lowercased before use, so
recasing them never changes the response; the whitelist comparison, by
contrast, is case-sensitive, and the raw input string is handed to the
phone parser without case normalization. -/
theorem userInput_keys_case_insensitive (parse : ParseFn) (i : QVal)
    (v v' n n' d d' : List Char)
    (hv : lowerL v = lowerL v') (hn : lowerL n = lowerL n')
    (hd : lowerL d = lowerL d') :
    userInputHandler parse ⟨i, QVal.str v, QVal.str n, QVal.str d⟩ =
      userInputHandler parse ⟨i, QVal.str v', QVal.str n', QVal.str d'⟩ := by
  have hv2 : truthy (QVal.str v) = truthy (QVal.str v') := truthy_of_lowerL_eq hv
  have hn2 : truthy (QVal.str n) = truthy (QVal.str n') := truthy_of_lowerL_eq hn
  have hpv : parseKeys (QVal.str v) = parseKeys (QVal.str v') :=
    parseKeys_of_lowerL_eq hv
  have hpn : parseKeys (QVal.str n) = parseKeys (QVal.str n') :=
    parseKeys_of_lowerL_eq hn
  have hde : effDefault (QVal.str d) = effDefault (QVal.str d') :=
    effDefault_of_lowerL_eq hd
  unfold userInputHandler
  rw [if_neg (fun h => QVal.noConfusion h), if_neg (fun h => QVal.noConfusion h)]
  simp only [userInputRespond]
  rw [hv2, hn2, hpv, hpn, hde]

/-- Witness for the amended C9. -/
theorem userInput_keys_case_insensitive_witness :
    userInputHandler parseUS ⟨QVal.str "+14155550100".data, QVal.str "US,CA".data,
        QVal.str "PK".data, QVal.str "XY".data⟩ =
      userInputHandler parseUS ⟨QVal.str "+14155550100".data,
        QVal.str "us,ca".data, QVal.str "pk".data, QVal.str "xy".data⟩ :=
  userInput_keys_case_insensitive parseUS (QVal.str "+14155550100".data)
    "US,CA".data "us,ca".data "PK".data "pk".data "XY".data "xy".data
    (by decide) (by decide) (by decide)

end CountryCheck
